import Mathlib

/-!
Shallow embedding of the `js-utils` event emitter / observable core
(`src/emitter.ts`, `src/observable.ts`).

Modelling conventions:
* Emitter and Observable instances are identified by natural numbers (`EId`);
  callback functions are identified by natural numbers (`CbId`).  Function
  identity in JavaScript (`===` on functions, `Map`/`Set` keyed by functions)
  becomes equality of these identifiers.
* A JavaScript `Map` is an insertion-ordered association list (`aget`, `aset`,
  `adel`, `akeys` below mirror `Map.get`/`Map.set`/`Map.delete`/`Map.keys`,
  including the fact that `set` on an existing key keeps its position and that
  iteration follows insertion order).  A JavaScript `Set` of callbacks is an
  insertion-ordered duplicate-free list.
* JavaScript primitive values are `Val`; `Val.undef` is `undefined`.  Strict
  equality `===` on these primitives is structural equality of `Val`.
* All instance fields (`[events]`, `_subscribedEmitters`, `_observables`,
  `_targetToSourceDefinition`, `_sourcePropertyToTarget`) live in one `World`
  record, indexed by the owning instance.  A lazily-initialised absent map and
  a present empty map behave identically in every guard of the source, so an
  absent field is represented by the empty association list.
* Callbacks are interpreted when `fire` dispatches them.  A callback is either
  one of the internal binding listeners created by `Observable..to()`
  (registered in `listBody`), or an external callback whose behaviour is a
  fixed `EBody` (a plain spy, a spy that calls `event.stop()` / `event.off()`,
  or a spy that registers another callback mid-dispatch).  Every dispatch is
  recorded in `log`; every invocation of a bound target callback is recorded
  in `tlog`.  These logs are observation-only: no source code reads them.
-/

/-- JavaScript primitive values as used by the observable layer.
`undef` is `undefined`.  Strict equality `===` on these primitives is
decidable equality of `Val`. -/
inductive Val where
  | undef
  | vnum (n : Int)
  | vstr (s : String)
  | vbool (b : Bool)
deriving DecidableEq, Repr

/-- Identity of an Emitter/Observable instance. -/
abbrev EId := Nat

/-- Identity of a callback function. -/
abbrev CbId := Nat

/-- Insertion-ordered association list modelling a JavaScript `Map`. -/
abbrev JMap (K V : Type) := List (K × V)

/-- `Map.get`: the value at the first matching key, if any. -/
def aget {K V : Type} [DecidableEq K] : JMap K V → K → Option V
  | [], _ => none
  | (k, v) :: rest, key => if k = key then some v else aget rest key

/-- `Map.set`: replace the value at an existing key in place (keeping its
insertion position), otherwise append a new entry. -/
def aset {K V : Type} [DecidableEq K] : JMap K V → K → V → JMap K V
  | [], key, val => [(key, val)]
  | (k, v) :: rest, key, val =>
      if k = key then (k, val) :: rest else (k, v) :: aset rest key val

/-- `Map.delete`: remove the entry at the key, if present. -/
def adel {K V : Type} [DecidableEq K] : JMap K V → K → JMap K V
  | [], _ => []
  | (k, v) :: rest, key => if k = key then rest else (k, v) :: adel rest key

/-- `Map.keys()` in insertion order. -/
def akeys {K V : Type} (m : JMap K V) : List K := m.map Prod.fst

/-- Lookup through two nested maps. -/
def aget2 {K1 K2 V : Type} [DecidableEq K1] [DecidableEq K2]
    (m : JMap K1 (JMap K2 V)) (k1 : K1) (k2 : K2) : Option V :=
  (aget m k1).bind (fun inner => aget inner k2)

/-- Update through two nested maps, creating the inner map if absent. -/
def aset2 {K1 K2 V : Type} [DecidableEq K1] [DecidableEq K2]
    (m : JMap K1 (JMap K2 V)) (k1 : K1) (k2 : K2) (v : V) :
    JMap K1 (JMap K2 V) :=
  aset m k1 (aset ((aget m k1).getD []) k2 v)

/-- Lookup through three nested maps. -/
def aget3 {K1 K2 K3 V : Type} [DecidableEq K1] [DecidableEq K2] [DecidableEq K3]
    (m : JMap K1 (JMap K2 (JMap K3 V))) (k1 : K1) (k2 : K2) (k3 : K3) :
    Option V :=
  (aget2 m k1 k2).bind (fun inner => aget inner k3)

@[simp] theorem aget_nil {K V : Type} [DecidableEq K] (k : K) :
    aget ([] : JMap K V) k = none := rfl

@[simp] theorem aget_cons {K V : Type} [DecidableEq K] (k key : K) (v : V)
    (rest : JMap K V) :
    aget ((k, v) :: rest) key = if k = key then some v else aget rest key := rfl

@[simp] theorem aget_aset_self {K V : Type} [DecidableEq K]
    (m : JMap K V) (k : K) (v : V) : aget (aset m k v) k = some v := by
  induction m with
  | nil => simp [aset]
  | cons hd tl ih =>
      obtain ⟨k', v'⟩ := hd
      by_cases h : k' = k <;> simp [aset, h, ih]

@[simp] theorem aget_aset_ne {K V : Type} [DecidableEq K]
    (m : JMap K V) (k k' : K) (v : V) (h : k ≠ k') :
    aget (aset m k v) k' = aget m k' := by
  induction m with
  | nil => simp [aset, h]
  | cons hd tl ih =>
      obtain ⟨k0, v0⟩ := hd
      by_cases h0 : k0 = k
      · subst h0; simp [aset, h]
      · simp [aset, h0, ih]

/-- The JavaScript error values thrown by the observable layer.  The source
throws `new Error('Cannot bind the same callback twice.')` from `bind` and
`new Error('Invalid source definition.')` from `formatSource`; the spec names
these `DuplicateBindingError` and `InvalidSourceDefinitionError`. -/
inductive JsError where
  | duplicateBinding
  | invalidSourceDefinition
deriving DecidableEq, Repr

deriving instance DecidableEq for Except

/-- Behaviour of an external callback when dispatched by `fire`.  `pure` is a
plain spy; `stop` / `off` / `offStop` additionally call `event.stop()` and/or
`event.off()` on their `EmitterEvent`; `register l tgt ev c` calls
`l.listenTo(tgt, ev, c)` during its own execution (used to model a callback
that registers a new callback mid-dispatch). -/
inductive EBody where
  | pure
  | stop
  | off
  | offStop
  | register (l : EId) (tgt : EId) (ev : String) (c : CbId)
deriving DecidableEq, Repr

/-- Whether an `EBody` calls `event.stop()` (the `stop` spy is then
`isCalled`). -/
def stopFlag : EBody → Bool
  | .stop => true
  | .offStop => true
  | _ => false

/-- Whether an `EBody` calls `event.off()` (the `off` spy is then
`isCalled`). -/
def offFlag : EBody → Bool
  | .off => true
  | .offStop => true
  | _ => false

instance : DecidableEq (JMap CbId (JMap EId (List String))) := inferInstance

instance : DecidableEq (JMap EId (JMap CbId (JMap EId (List String)))) :=
  inferInstance

instance : DecidableEq (JMap EId (JMap String (List CbId))) := inferInstance

instance : DecidableEq (JMap EId (JMap EId (JMap String (List CbId)))) :=
  inferInstance

/-- The whole mutable state: every instance's emitter fields and observable
fields, the behaviours of callbacks, and the observation logs. -/
structure World where
  /-- Per instance, the `[events]` map: event name to registered callbacks. -/
  events : JMap EId (JMap String (List CbId))
  /-- Per instance, the `_subscribedEmitters` map: remote emitter to the
  callbacks this instance registered on it. -/
  subTo : JMap EId (JMap EId (List CbId))
  /-- Per instance, the `_observables` backing store: property name to value. -/
  observables : JMap EId (JMap String Val)
  /-- Per instance, the `_targetToSourceDefinition` map: target callback to its
  grouped source definition (source to its set of property names). -/
  t2s : JMap EId (JMap CbId (JMap EId (List String)))
  /-- Per instance, the `_sourcePropertyToTarget` map: source to property name
  to the set of target callbacks depending on that pair. -/
  s2t : JMap EId (JMap EId (JMap String (List CbId)))
  /-- The binding listener closures created inside `.to()`: listener callback
  id to (owner observable, source observable, property name). -/
  listBody : JMap CbId (EId × EId × String)
  /-- Behaviours of external callbacks (absent means a plain spy). -/
  bodies : JMap CbId EBody
  /-- Allocator for fresh callback identities (closures created by `.to()`). -/
  nextCb : CbId
  /-- Observation log: every callback dispatched by `fire`, with the event
  name and the arguments after the `EmitterEvent` token. -/
  log : List (CbId × String × List Val)
  /-- Observation log: every invocation of a bound target callback, with its
  positional arguments. -/
  tlog : List (CbId × List Val)
deriving DecidableEq, Repr

/-- The helper `removeCallback` of `emitter.ts`:
`callbacks.splice(callbacks.indexOf(callback), 1)`.  When the callback is
present this removes its first occurrence; when it is absent, `indexOf`
returns `-1` and `splice(-1, 1)` removes the LAST element of the list (and
does nothing on an empty list). -/
def removeCallback (callbacks : List CbId) (callback : CbId) : List CbId :=
  if callback ∈ callbacks then callbacks.erase callback else callbacks.dropLast

/-- `Emitter.listenTo(emitter, eventName, callback)`: create the lazily
initialised maps and entries, then push the callback onto both the remote's
event list and the listener's bookkeeping list. -/
def listenTo (w : World) (l : EId) (e : EId) (ev : String) (c : CbId) : World :=
  let subL := (aget w.subTo l).getD []
  let subL := if (aget subL e).isNone then aset subL e [] else subL
  let evs := (aget w.events e).getD []
  let evs := if (aget evs ev).isNone then aset evs ev [] else evs
  let emitterCallbacks := (aget subL e).getD []
  let eventCallbacks := (aget evs ev).getD []
  { w with
    subTo := aset w.subTo l (aset subL e (emitterCallbacks ++ [c])),
    events := aset w.events e (aset evs ev (eventCallbacks ++ [c])) }

/-- `Emitter.stopListening(emitter, eventName, callback)` with all three
arguments: the guard chain of the source followed by the specific-form body
(remove from both lists, then delete entries that became empty). -/
def stopListeningCb (w : World) (l : EId) (e : EId) (ev : String) (c : CbId) :
    World :=
  let subL := (aget w.subTo l).getD []
  if subL.isEmpty then w
  else if (aget subL e).isNone then w
  else if (aget2 w.events e ev).isNone then w
  else
    let emitterCallbacks := removeCallback ((aget subL e).getD []) c
    let eventCallbacks := removeCallback ((aget2 w.events e ev).getD []) c
    let subL := aset subL e emitterCallbacks
    let evs := aset ((aget w.events e).getD []) ev eventCallbacks
    let subL := if emitterCallbacks.isEmpty then adel subL e else subL
    let evs := if eventCallbacks.isEmpty then adel evs ev else evs
    { w with subTo := aset w.subTo l subL, events := aset w.events e evs }

/-- `Emitter.stopListening(emitter, eventName)`: after the guard chain, expand
to a specific-form call for every callback in a snapshot
(`Array.from(emitter[events].get(eventName))`). -/
def stopListeningEvent (w : World) (l : EId) (e : EId) (ev : String) : World :=
  let subL := (aget w.subTo l).getD []
  if subL.isEmpty then w
  else if (aget subL e).isNone then w
  else if (aget2 w.events e ev).isNone then w
  else
    ((aget2 w.events e ev).getD []).foldl
      (fun acc c => stopListeningCb acc l e ev c) w

/-- `Emitter.stopListening(emitter)`: after the guard chain, expand to an
event-form call for every event name in a snapshot of the remote's keys. -/
def stopListeningEmitter (w : World) (l : EId) (e : EId) : World :=
  let subL := (aget w.subTo l).getD []
  if subL.isEmpty then w
  else if (aget subL e).isNone then w
  else
    (akeys ((aget w.events e).getD [])).foldl
      (fun acc ev => stopListeningEvent acc l e ev) w

/-- `Emitter.stopListening()`: expand to an emitter-form call for every
subscribed emitter in a snapshot of the bookkeeping keys. -/
def stopListeningAll (w : World) (l : EId) : World :=
  let subL := (aget w.subTo l).getD []
  if subL.isEmpty then w
  else (akeys subL).foldl (fun acc e => stopListeningEmitter acc l e) w

/-- `Emitter.stopListening(emitter?, eventName?, callback?)`: dispatch on
which optional arguments are present, exactly as the source's guard chain
does. -/
def stopListening (w : World) (l : EId) :
    Option EId → Option String → Option CbId → World
  | none, _, _ => stopListeningAll w l
  | some e, none, _ => stopListeningEmitter w l e
  | some e, some ev, none => stopListeningEvent w l e ev
  | some e, some ev, some c => stopListeningCb w l e ev c

/-- `Emitter.on(eventName, callback)` = `listenTo(this, eventName, callback)`. -/
def onEvent (w : World) (l : EId) (ev : String) (c : CbId) : World :=
  listenTo w l l ev c

/-- `Emitter.off(eventName, callback)` =
`stopListening(this, eventName, callback)`. -/
def offEvent (w : World) (l : EId) (ev : String) (c : CbId) : World :=
  stopListeningCb w l l ev c

/-- The function `collectAllTargetValues` of `observable.ts`: the current
value of every (source, property) pair of a source definition, iterating
sources in map insertion order and properties in set insertion order. -/
def collectAllTargetValues (w : World) (sd : JMap EId (List String)) :
    List Val :=
  (sd.map (fun sp =>
    sp.2.map (fun p => (aget2 w.observables sp.1 p).getD Val.undef))).flatten

/-- The body of the listener closure created inside `.to()` for one
(owner, source, property) triple: for every target callback currently in the
dependent set of that pair, invoke it with the freshly collected values of its
own source definition. -/
def runTargets (w : World) (o : EId) (s : EId) (p : String) : World :=
  ((aget3 w.s2t o s p).getD []).foldl
    (fun acc t =>
      { acc with
        tlog := acc.tlog ++
          [(t, collectAllTargetValues acc ((aget2 acc.t2s o t).getD []))] })
    w

/-- Dispatch one callback from `fire`: append to the observation log, run the
callback's behaviour, and report the `stop` / `off` spy flags of its
`EmitterEvent`. -/
def applyCb (w : World) (ev : String) (args : List Val) (c : CbId) :
    World × Bool × Bool :=
  let w := { w with log := w.log ++ [(c, ev, args)] }
  match aget w.listBody c with
  | some (o, s, p) => (runTargets w o s p, false, false)
  | none =>
      let body := (aget w.bodies c).getD .pure
      match body with
      | .register l tgt ev' c' => (listenTo w l tgt ev' c', false, false)
      | _ => (w, stopFlag body, offFlag body)

/-- The dispatch loop of `Emitter.fire`: iterate a snapshot of the callback
list; after each callback, if its event's `off` spy was called remove it from
the live list with `removeCallback`, then if the `stop` spy was called halt
the iteration. -/
def fireList (w : World) (e : EId) (ev : String) (args : List Val) :
    List CbId → World
  | [] => w
  | c :: rest =>
      let res := applyCb w ev args c
      let w1 := res.1
      let w2 :=
        if res.2.2 then
          match aget2 w1.events e ev with
          | some live =>
              { w1 with
                events := aset w1.events e
                  (aset ((aget w1.events e).getD []) ev
                    (removeCallback live c)) }
          | none => w1
        else w1
      if res.2.1 then w2 else fireList w2 e ev args rest

/-- `Emitter.fire(eventName, ...args)`: return immediately when no callback
list exists for the event, otherwise run the dispatch loop over a snapshot of
the current list. -/
def fire (w : World) (e : EId) (ev : String) (args : List Val) : World :=
  match aget2 w.events e ev with
  | none => w
  | some callbacks => fireList w e ev args callbacks

/-- The reactive accessor installed by `Observable.set`: writing compares the
new value to the stored value with strict equality; if unequal it stores the
new value and fires `change:<name>` with `(newValue, oldValue)` after the
event token, otherwise it does nothing. -/
def assignProp (w : World) (s : EId) (name : String) (v : Val) : World :=
  let oldValue := (aget2 w.observables s name).getD Val.undef
  if oldValue ≠ v then
    let w1 := { w with observables := aset2 w.observables s name v }
    fire w1 s ("change:" ++ name) [v, oldValue]
  else w

/-- `Observable.set(name, value)`: install the reactive accessor for the name
on first use, then assign through it.  The property-descriptor mechanics of
`Object.defineProperty` are not modelled; the write path is exactly
`assignProp`. -/
def setProp (w : World) (s : EId) (name : String) (v : Val) : World :=
  assignProp w s name v

/-- An element of the flat argument sequence of `.to(...)`: an object with the
bind capability (an Observable), a string, or some other value that is neither
a string nor bind-capable. -/
inductive SrcArg where
  | obs (e : EId)
  | str (s : String)
  | other
deriving DecidableEq, Repr

/-- Whether a `.to()` argument is `typeof source !== 'string'` and has a
callable `bind` member (`typeof source.bind === 'function'`). -/
def isBindCapable : SrcArg → Bool
  | .obs _ => true
  | _ => false

/-- The stride-2 loop of `formatSource`: take the next (source, property)
pair while at least two elements remain (`i < properties.length - 1`); a
trailing unpaired element is ignored.  The source position must be
bind-capable and not a string, the property position must be a string;
otherwise throw `Invalid source definition.`.  Valid pairs are grouped into
the definition map, collapsing duplicate properties of one source via
`Set.add`. -/
def formatLoop : List SrcArg → JMap EId (List String) →
    Except JsError (JMap EId (List String))
  | a :: b :: rest, definition =>
      if ¬ isBindCapable a then .error .invalidSourceDefinition
      else
        match a, b with
        | .obs source, .str property =>
            match aget definition source with
            | some props =>
                formatLoop rest
                  (aset definition source
                    (if property ∈ props then props else props ++ [property]))
            | none => formatLoop rest (definition ++ [(source, [property])])
        | _, _ => .error .invalidSourceDefinition
  | _, definition => .ok definition

/-- The function `formatSource` of `observable.ts` (the variant with full
validation): reject argument sequences shorter than 2, then run the
stride-2 grouping loop. -/
def formatSource (properties : List SrcArg) :
    Except JsError (JMap EId (List String)) :=
  if properties.length < 2 then .error .invalidSourceDefinition
  else formatLoop properties []

/-- The inner loop body of `.to()` for one property of one source: when the
(source, property) pair has no dependent set yet, create the empty set,
allocate the listener closure (a fresh callback identity whose behaviour is
recorded in `listBody`) and register it via `listenTo` for
`change:<property>`; then add the target callback to the pair's dependent
set (`Set.add`: no duplicate, insertion order kept). -/
def toProp (w : World) (o : EId) (targetCallback : CbId) (s : EId)
    (property : String) : World :=
  let sourceProperties := (aget2 w.s2t o s).getD []
  let w1 :=
    if (aget sourceProperties property).isNone then
      let lid := w.nextCb
      let w' :=
        { w with
          s2t := aset2 w.s2t o s (aset sourceProperties property []),
          listBody := aset w.listBody lid (o, s, property),
          nextCb := w.nextCb + 1 }
      listenTo w' o s ("change:" ++ property) lid
    else w
  let props1 := (aget2 w1.s2t o s).getD []
  let tset := (aget props1 property).getD []
  { w1 with
    s2t := aset2 w1.s2t o s
      (aset props1 property
        (if targetCallback ∈ tset then tset else tset ++ [targetCallback])) }

/-- The outer loop body of `.to()` for one source: create the source's entry
in `_sourcePropertyToTarget` when absent, then process each of its
properties. -/
def toSource (w : World) (o : EId) (targetCallback : CbId) (s : EId)
    (props : List String) : World :=
  let ownerMap := (aget w.s2t o).getD []
  let w1 :=
    if (aget ownerMap s).isNone then
      { w with s2t := aset w.s2t o (aset ownerMap s []) }
    else w
  props.foldl (fun acc p => toProp acc o targetCallback s p) w1

/-- `Observable.bind(targetCallback)` followed by `.to(...properties)` as one
step: `bind` throws `Cannot bind the same callback twice.` when the callback
is already bound; `.to` formats and validates the source definition (throwing
before anything is committed), records it for the target, wires every
(source, property) pair, and finally invokes the target once with the
freshly collected values of its definition. -/
def bindTo (w : World) (o : EId) (targetCallback : CbId)
    (properties : List SrcArg) : Except JsError World :=
  if (aget2 w.t2s o targetCallback).isSome then .error .duplicateBinding
  else
    match formatSource properties with
    | .error e => .error e
    | .ok sourceDefinition =>
        let w1 := { w with t2s := aset2 w.t2s o targetCallback sourceDefinition }
        let w2 := sourceDefinition.foldl
          (fun acc sp => toSource acc o targetCallback sp.1 sp.2) w1
        .ok { w2 with
          tlog := w2.tlog ++
            [(targetCallback,
              collectAllTargetValues w2
                ((aget2 w2.t2s o targetCallback).getD []))] }

/-- The inner loop body of `Observable.unbind` for one (source, property)
entry: when the target belongs to the pair's dependent set, remove it; when
the set becomes empty, delete the property entry, tear down the underlying
subscription via `stopListening(observable, 'change:' + property)`, and
delete the source entry when its property map became entirely empty. -/
def unbindProp (w : World) (o : EId) (targetCallback : CbId) (s : EId)
    (property : String) : World :=
  let targets := (aget3 w.s2t o s property).getD []
  if targetCallback ∈ targets then
    let targets' := targets.erase targetCallback
    let inner1 := aset ((aget2 w.s2t o s).getD []) property targets'
    let w1 := { w with s2t := aset2 w.s2t o s inner1 }
    if targets'.isEmpty then
      let inner2 := adel ((aget2 w1.s2t o s).getD []) property
      let w2 := { w1 with s2t := aset2 w1.s2t o s inner2 }
      let w3 := stopListeningEvent w2 o s ("change:" ++ property)
      if ((aget2 w3.s2t o s).getD []).isEmpty then
        let outer := adel ((aget w3.s2t o).getD []) s
        { w3 with s2t := aset w3.s2t o outer }
      else w3
    else w1
  else w

/-- `Observable.unbind(targetCallback)`: a no-op when the callback was never
bound; otherwise delete its source definition record and walk every
(source, property) dependent set, removing the callback and tearing down
emptied entries. -/
def unbind (w : World) (o : EId) (targetCallback : CbId) : World :=
  if (aget2 w.t2s o targetCallback).isNone then w
  else
    let w1 := { w with
      t2s := aset w.t2s o (adel ((aget w.t2s o).getD []) targetCallback) }
    ((aget w1.s2t o).getD []).foldl
      (fun acc sp =>
        sp.2.foldl
          (fun acc2 pp => unbindProp acc2 o targetCallback sp.1 pp.1) acc)
      w1

/-- Appending the tag `change:` to a property name is injective. -/
theorem changeName_inj {p q : String} (h : "change:" ++ p = "change:" ++ q) :
    p = q := by
  have h2 := congrArg String.data h
  simp only [String.data_append] at h2
  exact String.ext (List.append_cancel_left h2)

theorem aget_eq_none_of_not_mem_akeys {K V : Type} [DecidableEq K]
    {m : JMap K V} {k : K} (h : k ∉ akeys m) : aget m k = none := by
  induction m with
  | nil => rfl
  | cons hd tl ih =>
      obtain ⟨k0, v0⟩ := hd
      simp only [akeys, List.map_cons, List.mem_cons] at h
      push_neg at h
      have hk : ¬ k0 = k := fun h' => h.1 h'.symm
      simp [aget, hk, ih (by simpa [akeys] using h.2)]

theorem aget_adel_self_nodup {K V : Type} [DecidableEq K]
    {m : JMap K V} (h : (akeys m).Nodup) (k : K) : aget (adel m k) k = none := by
  induction m with
  | nil => rfl
  | cons hd tl ih =>
      obtain ⟨k0, v0⟩ := hd
      simp only [akeys, List.map_cons, List.nodup_cons] at h
      by_cases hk : k0 = k
      · subst hk
        simpa [adel] using aget_eq_none_of_not_mem_akeys h.1
      · simp [adel, hk, aget, ih h.2]

theorem akeys_aset_of_mem {K V : Type} [DecidableEq K]
    {m : JMap K V} {k : K} (h : (aget m k).isSome) (v : V) :
    akeys (aset m k v) = akeys m := by
  induction m with
  | nil => simp [aget] at h
  | cons hd tl ih =>
      obtain ⟨k0, v0⟩ := hd
      by_cases hk : k0 = k
      · simp [aset, hk, akeys]
      · simp only [aget, hk, if_false] at h
        simp only [aset, hk, if_false, akeys, List.map_cons]
        have := ih h
        simp only [akeys] at this
        rw [this]

/-- Removing a present element with `removeCallback` is `List.erase`. -/
theorem removeCallback_mem {l : List CbId} {c : CbId} (h : c ∈ l) :
    removeCallback l c = l.erase c := by simp [removeCallback, h]

/-- Removing an absent element with `removeCallback` drops the LAST element
(the `splice(indexOf, 1)` behaviour with `indexOf = -1`). -/
theorem removeCallback_not_mem {l : List CbId} {c : CbId} (h : c ∉ l) :
    removeCallback l c = l.dropLast := by simp [removeCallback, h]

theorem erase_middle {l1 l2 : List CbId} {c : CbId} (h : c ∉ l1) :
    (l1 ++ c :: l2).erase c = l1 ++ l2 := by
  rw [List.erase_append_right _ h, List.erase_cons_head]

/-- A callback with no recorded behaviour: not a binding listener, and its
body is the plain spy. -/
def plainCb (w : World) (c : CbId) : Prop :=
  aget w.listBody c = none ∧ (aget w.bodies c).getD EBody.pure = EBody.pure

/-- A callback that signals neither `stop` nor `off` and is not a binding
listener (a plain spy or a registering spy). -/
def benignCb (w : World) (c : CbId) : Prop :=
  aget w.listBody c = none ∧
  stopFlag ((aget w.bodies c).getD EBody.pure) = false ∧
  offFlag ((aget w.bodies c).getD EBody.pure) = false

instance (w : World) (c : CbId) : Decidable (plainCb w c) := by
  unfold plainCb; infer_instance

instance (w : World) (c : CbId) : Decidable (benignCb w c) := by
  unfold benignCb; infer_instance

theorem plainCb_of_eq {w w' : World} {c : CbId}
    (hl : w'.listBody = w.listBody) (hb : w'.bodies = w.bodies)
    (h : plainCb w c) : plainCb w' c := by
  unfold plainCb at h ⊢; rw [hl, hb]; exact h

theorem benignCb_of_eq {w w' : World} {c : CbId}
    (hl : w'.listBody = w.listBody) (hb : w'.bodies = w.bodies)
    (h : benignCb w c) : benignCb w' c := by
  unfold benignCb at h ⊢; rw [hl, hb]; exact h

theorem applyCb_plain {w : World} {c : CbId} (h : plainCb w c)
    (ev : String) (args : List Val) :
    applyCb w ev args c =
      ({ w with log := w.log ++ [(c, ev, args)] }, false, false) := by
  obtain ⟨h1, h2⟩ := h
  simp only [applyCb, h1, h2]
  rfl

/-- Dispatching a list of plain spies appends their invocations to the log
and changes nothing else. -/
theorem fireList_plain (e : EId) (ev : String) (args : List Val) :
    ∀ (cbs : List CbId) (w : World), (∀ x ∈ cbs, plainCb w x) →
    fireList w e ev args cbs =
      { w with log := w.log ++ cbs.map (fun c => (c, ev, args)) } := by
  intro cbs
  induction cbs with
  | nil => intro w _; simp [fireList]
  | cons c rest ih =>
      intro w h
      have hc : plainCb w c := h c (by simp)
      rw [fireList, applyCb_plain hc]
      simp only [Bool.false_eq_true, if_false]
      rw [ih { w with log := w.log ++ [(c, ev, args)] }
        (fun x hx => plainCb_of_eq rfl rfl (h x (by simp [hx])))]
      simp

/-- Dispatching a plain prefix only appends to the log. -/
theorem fireList_plain_prefix (e : EId) (ev : String) (args : List Val) :
    ∀ (pre : List CbId) (w : World) (rest : List CbId),
    (∀ x ∈ pre, plainCb w x) →
    fireList w e ev args (pre ++ rest) =
      fireList { w with log := w.log ++ pre.map (fun c => (c, ev, args)) }
        e ev args rest := by
  intro pre
  induction pre with
  | nil => intro w rest _; simp
  | cons c pre' ih =>
      intro w rest h
      have hc : plainCb w c := h c (by simp)
      rw [List.cons_append, fireList, applyCb_plain hc]
      simp only [Bool.false_eq_true, if_false]
      rw [ih { w with log := w.log ++ [(c, ev, args)] } rest
        (fun x hx => plainCb_of_eq rfl rfl (h x (by simp [hx])))]
      simp

@[simp] theorem aget2_aset2_self {K1 K2 V : Type} [DecidableEq K1]
    [DecidableEq K2] (m : JMap K1 (JMap K2 V)) (k1 : K1) (k2 : K2) (v : V) :
    aget2 (aset2 m k1 k2 v) k1 k2 = some v := by
  simp [aget2, aset2, Option.bind]

theorem listenTo_log (w : World) (l e : EId) (ev : String) (c : CbId) :
    (listenTo w l e ev c).log = w.log := rfl

theorem listenTo_bodies (w : World) (l e : EId) (ev : String) (c : CbId) :
    (listenTo w l e ev c).bodies = w.bodies := rfl

theorem listenTo_listBody (w : World) (l e : EId) (ev : String) (c : CbId) :
    (listenTo w l e ev c).listBody = w.listBody := rfl

theorem applyCb_benign {w : World} {c : CbId} (h : benignCb w c)
    (ev : String) (args : List Val) :
    (applyCb w ev args c).2.1 = false ∧ (applyCb w ev args c).2.2 = false ∧
    (applyCb w ev args c).1.log = w.log ++ [(c, ev, args)] ∧
    (applyCb w ev args c).1.bodies = w.bodies ∧
    (applyCb w ev args c).1.listBody = w.listBody := by
  obtain ⟨h1, h2, h3⟩ := h
  simp only [applyCb, h1]
  cases hb : (aget w.bodies c).getD EBody.pure with
  | register l tgt ev' c' =>
      simp [listenTo_log, listenTo_bodies, listenTo_listBody]
  | pure => simp [stopFlag, offFlag]
  | stop => rw [hb] at h2; simp [stopFlag] at h2
  | off => rw [hb] at h3; simp [offFlag] at h3
  | offStop => rw [hb] at h2; simp [stopFlag] at h2

/-- Dispatching callbacks that neither stop nor detach logs every element of
the snapshot, whatever else the bodies do. -/
theorem fireList_benign_log {e : EId} {ev : String} {args : List Val} :
    ∀ (cbs : List CbId) (w : World), (∀ x ∈ cbs, benignCb w x) →
    (fireList w e ev args cbs).log =
      w.log ++ cbs.map (fun c => (c, ev, args)) := by
  intro cbs
  induction cbs with
  | nil => intro w _; simp [fireList]
  | cons c rest ih =>
      intro w h
      obtain ⟨hs, ho, hl, hb, hlb⟩ := applyCb_benign (h c (by simp)) ev args
      rw [fireList]
      simp only [hs, ho, Bool.false_eq_true, if_false]
      rw [ih (applyCb w ev args c).1
        (fun x hx => benignCb_of_eq hlb hb (h x (by simp [hx])))]
      simp [hl]

/-- The fold inside a binding listener only appends to `tlog`: each dependent
target is recorded once, paired with the values collected from the state the
listener observes. -/
theorem runTargetsList (o : EId) : ∀ (ts : List CbId) (w : World),
    ts.foldl (fun acc t =>
      { acc with tlog := acc.tlog ++
          [(t, collectAllTargetValues acc ((aget2 acc.t2s o t).getD []))] }) w
    = { w with tlog := w.tlog ++ ts.map (fun t => (t, collectAllTargetValues w ((aget2 w.t2s o t).getD []))) } := by
  intro ts
  induction ts with
  | nil => intro w; simp
  | cons t rest ih =>
      intro w
      rw [List.foldl_cons, ih]
      simp only [List.map_cons, List.append_assoc, List.cons_append,
        List.nil_append]
      congr 1

theorem runTargets_eq (w : World) (o s : EId) (p : String) :
    runTargets w o s p =
      { w with tlog := w.tlog ++ ((aget3 w.s2t o s p).getD []).map (fun t => (t, collectAllTargetValues w ((aget2 w.t2s o t).getD []))) } := by
  unfold runTargets
  exact runTargetsList o ((aget3 w.s2t o s p).getD []) w

/-- Firing an event whose only registered callback is a binding listener runs
exactly that listener's body. -/
theorem fire_single_listener (w : World) (s : EId) (evn : String)
    (args : List Val) (c : CbId) (o src : EId) (p : String)
    (h : aget2 w.events s evn = some [c])
    (hb : aget w.listBody c = some (o, src, p)) :
    fire w s evn args =
      runTargets { w with log := w.log ++ [(c, evn, args)] } o src p := by
  unfold fire
  rw [h]
  unfold fireList
  unfold applyCb
  simp only [hb]
  rfl

/-- Firing an event whose only registered callback is a plain spy appends
exactly one log entry. -/
theorem fire_single_plain (w : World) (s : EId) (evn : String)
    (args : List Val) (c : CbId)
    (h : aget2 w.events s evn = some [c]) (hp : plainCb w c) :
    fire w s evn args = { w with log := w.log ++ [(c, evn, args)] } := by
  unfold fire
  rw [h]
  have := fireList_plain s evn args [c] w
    (by intro x hx; simp at hx; subst hx; exact hp)
  simpa using this

theorem collect_congr {w w' : World} (h : w'.observables = w.observables)
    (sd : JMap EId (List String)) :
    collectAllTargetValues w' sd = collectAllTargetValues w sd := by
  unfold collectAllTargetValues
  rw [show aget2 w'.observables = aget2 w.observables from by rw [h]]

theorem toProp_preserves (w : World) (o : EId) (cb : CbId) (s : EId)
    (p : String) :
    (toProp w o cb s p).t2s = w.t2s ∧
    (toProp w o cb s p).observables = w.observables ∧
    (toProp w o cb s p).tlog = w.tlog := by
  unfold toProp listenTo
  by_cases hc : (aget ((aget2 w.s2t o s).getD []) p).isNone <;>
    simp [hc]

theorem toPropFold_preserves (o : EId) (cb : CbId) (s : EId) :
    ∀ (props : List String) (w : World),
    ((props.foldl (fun acc p => toProp acc o cb s p) w).t2s = w.t2s ∧
     (props.foldl (fun acc p => toProp acc o cb s p) w).observables =
       w.observables ∧
     (props.foldl (fun acc p => toProp acc o cb s p) w).tlog = w.tlog) := by
  intro props
  induction props with
  | nil => intro w; simp
  | cons p rest ih =>
      intro w
      rw [List.foldl_cons]
      obtain ⟨a, b, c⟩ := ih (toProp w o cb s p)
      obtain ⟨a', b', c'⟩ := toProp_preserves w o cb s p
      exact ⟨a.trans a', b.trans b', c.trans c'⟩

theorem toSource_preserves (w : World) (o : EId) (cb : CbId) (s : EId)
    (props : List String) :
    (toSource w o cb s props).t2s = w.t2s ∧
    (toSource w o cb s props).observables = w.observables ∧
    (toSource w o cb s props).tlog = w.tlog := by
  unfold toSource
  by_cases hc : (aget ((aget w.s2t o).getD []) s).isNone <;>
    simp only [hc, if_true, if_false] <;>
    exact toPropFold_preserves o cb s props _

theorem toLoop_preserves (o : EId) (cb : CbId) :
    ∀ (sd : JMap EId (List String)) (w : World),
    ((sd.foldl (fun acc sp => toSource acc o cb sp.1 sp.2) w).t2s = w.t2s ∧
     (sd.foldl (fun acc sp => toSource acc o cb sp.1 sp.2) w).observables =
       w.observables ∧
     (sd.foldl (fun acc sp => toSource acc o cb sp.1 sp.2) w).tlog = w.tlog) := by
  intro sd
  induction sd with
  | nil => intro w; simp
  | cons sp rest ih =>
      intro w
      rw [List.foldl_cons]
      obtain ⟨a, b, c⟩ := ih (toSource w o cb sp.1 sp.2)
      obtain ⟨a', b', c'⟩ := toSource_preserves w o cb sp.1 sp.2
      exact ⟨a.trans a', b.trans b', c.trans c'⟩

/-- A fresh world: no instance has any state yet; user-chosen callback
identities are taken below 100 and `.to()` allocates listener identities from
100 up. -/
def emptyWorld : World :=
  ⟨[], [], [], [], [], [], [], 100, [], []⟩

/-- Modelled from the spec (C1 comparison only): the current values of the
declared (source, property) pairs in the exact order the pairs appear in the
`.to()` argument list.  This is the order the claim asserts; the source's
`collectAllTargetValues` uses the grouped order instead. -/
def declarationOrderValues (w : World) : List SrcArg → List Val
  | .obs s :: .str p :: rest =>
      ((aget2 w.observables s p).getD Val.undef) :: declarationOrderValues w rest
  | _ => []

def c1Args : List SrcArg :=
  [.obs 1, .str "x", .obs 2, .str "y", .obs 1, .str "z"]

def c1Base : World :=
  setProp (setProp (setProp emptyWorld 1 "x" (.vnum 1)) 2 "y" (.vnum 2))
    1 "z" (.vnum 3)

def c1Bound : World :=
  (bindTo c1Base 5 30 c1Args).toOption.getD emptyWorld

def c1World : World := assignProp c1Bound 1 "x" (.vnum 10)

/-- C1 counterexample: bind callback 30 on observable 5 with
`.to(a, 'x', b, 'y', a, 'z')` (a = 1, b = 2) where `a.x = 1`, `b.y = 2`,
`a.z = 3`, then mutate `a.x` to 10.  The callback is invoked with the values
in grouped order `(a.x, a.z, b.y) = (10, 3, 2)`, and at no point is it
invoked with the declaration-order values `(a.x, b.y, a.z) = (10, 2, 3)`
that the claim asserts. -/
theorem C1_declaration_order_counterexample :
    c1World.tlog =
      [(30, [.vnum 1, .vnum 3, .vnum 2]), (30, [.vnum 10, .vnum 3, .vnum 2])] ∧
    declarationOrderValues c1World c1Args = [.vnum 10, .vnum 2, .vnum 3] ∧
    (30, declarationOrderValues c1World c1Args) ∉ c1World.tlog := by
  decide

def c2World : World :=
  let w1 := (bindTo emptyWorld 5 40 [.obs 1, .str "p"]).toOption.getD emptyWorld
  let w2 := (bindTo w1 5 41 [.obs 1, .str "q"]).toOption.getD emptyWorld
  let w3 := (bindTo w2 6 42 [.obs 1, .str "p"]).toOption.getD emptyWorld
  unbind w3 5 40

/-- C2 counterexample: owner 5 binds callback 40 to (source 1, `p`) and
callback 41 to (source 1, `q`); a second owner 6 binds callback 42 to
(source 1, `p`).  After `unbind(40)` on owner 5, callback 42 still depends on
(source 1, `p`) but no `change:p` subscription exists at all (owner 5's
teardown iterated every `change:p` callback of the source, removing owner 6's
listener, and `removeCallback`'s `splice(indexOf, 1)` corrupted owner 5's own
bookkeeping), so a subsequent change to `p` notifies nobody — not "exactly
one notification". -/
theorem C2_single_subscription_counterexample :
    aget3 c2World.s2t 6 1 "p" = some [42] ∧
    aget2 c2World.events 1 "change:p" = none ∧
    (assignProp c2World 1 "p" (Val.vnum 9)).tlog = c2World.tlog := by
  decide

def c3World : World :=
  listenTo { emptyWorld with bodies := [(7, EBody.off)] } 0 1 "x" 7

/-- C3 counterexample: emitter 0 registers callback 7 on remote 1 for event
`x` via `listenTo`; the callback signals `event.off()` when dispatched.
After `fire`, a point outside any `listenTo`/`stopListening` call, the
callback has been removed from the remote's `events` list but still occurs in
the listener's `subscribedTo` bookkeeping, so the claimed two-sided
correspondence is violated. -/
theorem C3_invariant_counterexample :
    let w := fire c3World 1 "x" []
    aget2 w.events 1 "x" = some [] ∧
    aget2 w.subTo 0 1 = some [7] ∧
    ¬ ((7 ∈ (aget2 w.events 1 "x").getD []) ↔
       (7 ∈ (aget2 w.subTo 0 1).getD [])) := by
  decide

def c7World : World :=
  onEvent (setProp emptyWorld 5 "foo" (Val.vstr "a")) 5 "change:foo" 21

/-- C7 counterexample: observable 5 holds `foo = 'a'` and callback 21 is
subscribed to `change:foo`.  Calling `set('foo', 'a')` twice in a row fires
`change:foo` zero times (the value is strictly equal to the stored one both
times, and the whole state is unchanged), while the claim asserts the pair of
calls fires exactly once for every value `v`. -/
theorem C7_set_idempotence_counterexample :
    setProp (setProp c7World 5 "foo" (Val.vstr "a")) 5 "foo" (Val.vstr "a") =
      c7World ∧
    c7World.log = [] := by
  decide

/-- C5: evaluation at the failing input.  The listener registers callback 11
on remote 1 for `something`, then calls
`stopListening(remote, 'something', 99)` for a callback 99 that was never
registered.  The claim (and the test named "should do nothing when given
callback is not subscribed") requires the state to be unchanged, but
`removeCallback`'s `splice(indexOf(cb), 1)` turns `indexOf = -1` into
`splice(-1, 1)`, deleting the LAST element of each list: callback 11 is
silently unsubscribed from both sides and the emptied entries are deleted.
The other absence cases (unknown event name, unsubscribed emitter, nothing
subscribed, unbound callback in `unbind`) are genuine no-ops, as the last
four conjuncts record. -/
theorem C5_stopListening_absent_callback_mutates :
    (aget2 (listenTo emptyWorld 0 1 "something" 11).events 1 "something" =
      some [11] ∧
     aget2 (listenTo emptyWorld 0 1 "something" 11).subTo 0 1 = some [11]) ∧
    (aget2 (stopListeningCb (listenTo emptyWorld 0 1 "something" 11)
        0 1 "something" 99).events 1 "something" = none ∧
     aget2 (stopListeningCb (listenTo emptyWorld 0 1 "something" 11)
        0 1 "something" 99).subTo 0 1 = none ∧
     stopListeningCb (listenTo emptyWorld 0 1 "something" 11)
        0 1 "something" 99 ≠ listenTo emptyWorld 0 1 "something" 11) ∧
    stopListeningEvent (listenTo emptyWorld 0 1 "something" 11) 0 1 "other" =
      listenTo emptyWorld 0 1 "something" 11 ∧
    stopListeningEmitter (listenTo emptyWorld 0 1 "something" 11) 0 0 =
      listenTo emptyWorld 0 1 "something" 11 ∧
    stopListeningAll emptyWorld 0 = emptyWorld ∧
    unbind (listenTo emptyWorld 0 1 "something" 11) 0 99 =
      listenTo emptyWorld 0 1 "something" 11 := by
  decide

/-- C6: `bind()` throws `DuplicateBindingError` (the source's
`Cannot bind the same callback twice.`) whenever the target callback is
already bound, before `.to()` runs; no state is produced, so the existing
binding is left untouched. -/
theorem C6_duplicate_bind_error (w : World) (o : EId) (cb : CbId)
    (args : List SrcArg) (h : (aget2 w.t2s o cb).isSome) :
    bindTo w o cb args = .error .duplicateBinding := by
  unfold bindTo
  simp [h]

def c6World : World :=
  (bindTo emptyWorld 5 30 [SrcArg.obs 1, SrcArg.str "foo"]).toOption.getD
    emptyWorld

/-- C6 witness: callback 30 is bound on observable 5; a second `bind` throws. -/
theorem C6_duplicate_bind_error_witness :
    bindTo c6World 5 30 [SrcArg.obs 1, SrcArg.str "bar"] =
      .error .duplicateBinding :=
  C6_duplicate_bind_error c6World 5 30 [SrcArg.obs 1, SrcArg.str "bar"]
    (by decide)

theorem applyCb_off {w : World} {c : CbId}
    (hlb : aget w.listBody c = none) (hb : aget w.bodies c = some EBody.off)
    (ev : String) (args : List Val) :
    applyCb w ev args c =
      ({ w with log := w.log ++ [(c, ev, args)] }, false, true) := by
  simp only [applyCb, hlb, hb, Option.getD_some]
  rfl

theorem applyCb_offStop {w : World} {c : CbId}
    (hlb : aget w.listBody c = none)
    (hb : aget w.bodies c = some EBody.offStop)
    (ev : String) (args : List Val) :
    applyCb w ev args c =
      ({ w with log := w.log ++ [(c, ev, args)] }, true, true) := by
  simp only [applyCb, hlb, hb, Option.getD_some]
  rfl

theorem applyCb_register {w : World} {c : CbId} {l tgt : EId} {ev' : String}
    {c' : CbId} (hlb : aget w.listBody c = none)
    (hb : aget w.bodies c = some (EBody.register l tgt ev' c'))
    (ev : String) (args : List Val) :
    applyCb w ev args c =
      (listenTo { w with log := w.log ++ [(c, ev, args)] } l tgt ev' c',
        false, false) := by
  simp only [applyCb, hlb, hb, Option.getD_some]

theorem mem_middle (pre post : List CbId) (c : CbId) :
    c ∈ pre ++ c :: post := by simp

theorem fire_log_plain (w : World) (e : EId) (ev : String) (args : List Val)
    (cbs : List CbId) (hev : aget2 w.events e ev = some cbs)
    (hp : ∀ x ∈ cbs, plainCb w x) :
    (fire w e ev args).log = w.log ++ cbs.map (fun x => (x, ev, args)) := by
  unfold fire
  rw [hev]
  show (fireList w e ev args cbs).log = _
  rw [fireList_plain e ev args cbs w hp]

theorem fireList_off_step (w : World) (e : EId) (ev : String)
    (args : List Val) (c : CbId) (post : List CbId) (live : List CbId)
    (hlb : aget w.listBody c = none) (hb : aget w.bodies c = some EBody.off)
    (hev : aget2 w.events e ev = some live) :
    fireList w e ev args (c :: post) =
      fireList { w with
        events := aset w.events e
          (aset ((aget w.events e).getD []) ev (removeCallback live c)),
        log := w.log ++ [(c, ev, args)] } e ev args post := by
  rw [fireList, applyCb_off hlb hb ev args]
  simp only [Bool.false_eq_true, if_false, if_true]
  have hev2 : aget2
      (({ w with log := w.log ++ [(c, ev, args)] } : World)).events e ev =
      some live := hev
  rw [hev2]

theorem fireList_offStop_step (w : World) (e : EId) (ev : String)
    (args : List Val) (c : CbId) (post : List CbId) (live : List CbId)
    (hlb : aget w.listBody c = none)
    (hb : aget w.bodies c = some EBody.offStop)
    (hev : aget2 w.events e ev = some live) :
    fireList w e ev args (c :: post) =
      { w with
        events := aset w.events e
          (aset ((aget w.events e).getD []) ev (removeCallback live c)),
        log := w.log ++ [(c, ev, args)] } := by
  rw [fireList, applyCb_offStop hlb hb ev args]
  simp only [Bool.false_eq_true, if_false, if_true]
  have hev2 : aget2
      (({ w with log := w.log ++ [(c, ev, args)] } : World)).events e ev =
      some live := hev
  rw [hev2]

/-- C4: during `fire`, a callback that signals `event.off()` has already run
when the flag is inspected; it is removed from the live callback list while
later snapshot callbacks still run, and it does not run on a future `fire` of
that event.  When the same invocation also signals `event.stop()`, the
removal from the live list is applied before the stop short-circuit halts the
iteration. -/
theorem C4_detach_semantics (w : World) (e : EId) (ev : String)
    (args args2 : List Val) (pre post : List CbId) (c : CbId)
    (h1 : aget2 w.events e ev = some (pre ++ c :: post))
    (h2 : ∀ x ∈ pre ++ post, plainCb w x)
    (h3 : c ∉ pre)
    (hlb : aget w.listBody c = none) :
    (aget w.bodies c = some EBody.off →
      (fire w e ev args).log =
        w.log ++ (pre ++ c :: post).map (fun x => (x, ev, args)) ∧
      aget2 (fire w e ev args).events e ev = some (pre ++ post) ∧
      (fire (fire w e ev args) e ev args2).log =
        (fire w e ev args).log ++
          (pre ++ post).map (fun x => (x, ev, args2))) ∧
    (aget w.bodies c = some EBody.offStop →
      (fire w e ev args).log =
        w.log ++ (pre ++ [c]).map (fun x => (x, ev, args)) ∧
      aget2 (fire w e ev args).events e ev = some (pre ++ post)) := by
  have hpre : ∀ x ∈ pre, plainCb w x := fun x hx => h2 x (by simp [hx])
  have hpost : ∀ x ∈ post, plainCb w x := fun x hx => h2 x (by simp [hx])
  have hrm : removeCallback (pre ++ c :: post) c = pre ++ post := by
    rw [removeCallback_mem (mem_middle pre post c), erase_middle h3]
  have e1 : fire w e ev args = fireList w e ev args (pre ++ c :: post) := by
    unfold fire; rw [h1]
  have e2 : fireList w e ev args (pre ++ c :: post) =
      fireList { w with log := w.log ++ pre.map (fun x => (x, ev, args)) }
        e ev args (c :: post) :=
    fireList_plain_prefix e ev args pre w (c :: post) hpre
  constructor
  · intro hb
    have e3 := fireList_off_step
      ({ w with log := w.log ++ pre.map (fun x => (x, ev, args)) })
      e ev args c post (pre ++ c :: post) hlb hb h1
    rw [hrm] at e3
    have e4 := fireList_plain e ev args post
      ({ w with
        events := aset w.events e
          (aset ((aget w.events e).getD []) ev (pre ++ post)),
        log := w.log ++ pre.map (fun x => (x, ev, args)) ++ [(c, ev, args)] })
      (fun x hx => plainCb_of_eq rfl rfl (hpost x hx))
    have hfire : fire w e ev args =
        { w with
          events := aset w.events e
            (aset ((aget w.events e).getD []) ev (pre ++ post)),
          log := w.log ++ pre.map (fun x => (x, ev, args)) ++ [(c, ev, args)]
            ++ post.map (fun x => (x, ev, args)) } := by
      rw [e1, e2, e3]
      exact e4
    refine ⟨?_, ?_, ?_⟩
    · rw [hfire]; simp
    · rw [hfire]; simp [aget2]
    · have hevF : aget2 (fire w e ev args).events e ev =
          some (pre ++ post) := by rw [hfire]; simp [aget2]
      have hplF : ∀ x ∈ pre ++ post, plainCb (fire w e ev args) x := by
        intro x hx
        refine plainCb_of_eq ?_ ?_ (h2 x hx) <;> rw [hfire]
      exact fire_log_plain (fire w e ev args) e ev args2 (pre ++ post)
        hevF hplF
  · intro hb
    have e3 := fireList_offStop_step
      ({ w with log := w.log ++ pre.map (fun x => (x, ev, args)) })
      e ev args c post (pre ++ c :: post) hlb hb h1
    rw [hrm] at e3
    have hfire : fire w e ev args =
        { w with
          events := aset w.events e
            (aset ((aget w.events e).getD []) ev (pre ++ post)),
          log := w.log ++ pre.map (fun x => (x, ev, args))
            ++ [(c, ev, args)] } := by
      rw [e1, e2, e3]
    constructor
    · rw [hfire]; simp
    · rw [hfire]; simp [aget2]

def c4World : World :=
  onEvent (onEvent (onEvent { emptyWorld with bodies := [(2, EBody.off)] }
    0 "x" 1) 0 "x" 2) 0 "x" 3

/-- C4 witness: callbacks 1, 2, 3 on event `x` of emitter 0, callback 2
detaching itself; all three run on the first fire, the live list becomes
`[1, 3]`, and the second fire runs only 1 and 3. -/
theorem C4_detach_semantics_witness :
    (fire c4World 0 "x" []).log =
      c4World.log ++ ([1] ++ 2 :: [3]).map (fun x => (x, "x", ([] : List Val))) ∧
    aget2 (fire c4World 0 "x" []).events 0 "x" = some ([1] ++ [3]) ∧
    (fire (fire c4World 0 "x" []) 0 "x" []).log =
      (fire c4World 0 "x" []).log ++
        ([1] ++ [3]).map (fun x => (x, "x", ([] : List Val))) :=
  (C4_detach_semantics c4World 0 "x" [] [] [1] [3] 2 (by decide) (by decide)
    (by decide) (by decide)).1 (by decide)

theorem aget2_getD {K1 K2 V : Type} [DecidableEq K1] [DecidableEq K2]
    (m : JMap K1 (JMap K2 V)) (k1 : K1) (k2 : K2) :
    aget2 m k1 k2 = aget ((aget m k1).getD []) k2 := by
  unfold aget2
  cases aget m k1 <;> simp

/-- `listenTo` pushes the callback onto the remote's event list (creating the
entry when needed). -/
theorem listenTo_events_get (w : World) (l e : EId) (ev : String) (c : CbId) :
    aget2 (listenTo w l e ev c).events e ev =
      some (((aget2 w.events e ev).getD []) ++ [c]) := by
  unfold listenTo
  rw [aget2_getD]
  rw [aget2_getD w.events e ev]
  cases hev : aget ((aget w.events e).getD []) ev <;>
    simp [hev]

/-- `listenTo` pushes the callback onto the listener's bookkeeping list
(creating the entry when needed). -/
theorem listenTo_subTo_get (w : World) (l e : EId) (ev : String) (c : CbId) :
    aget2 (listenTo w l e ev c).subTo l e =
      some (((aget2 w.subTo l e).getD []) ++ [c]) := by
  unfold listenTo
  rw [aget2_getD]
  rw [aget2_getD w.subTo l e]
  cases hsub : aget ((aget w.subTo l).getD []) e <;>
    simp [hsub]

theorem fireList_register_step (w : World) (e : EId) (ev : String)
    (args : List Val) (c : CbId) (post : List CbId) (l tgt : EId)
    (ev' : String) (c' : CbId)
    (hlb : aget w.listBody c = none)
    (hb : aget w.bodies c = some (EBody.register l tgt ev' c')) :
    fireList w e ev args (c :: post) =
      fireList (listenTo { w with log := w.log ++ [(c, ev, args)] } l tgt ev' c')
        e ev args post := by
  rw [fireList, applyCb_register hlb hb ev args]
  simp only [Bool.false_eq_true, if_false]

/-- C10: dispatch iterates a snapshot of the callback list taken when `fire`
starts, so a callback registered for the same event during dispatch is not
invoked by that `fire` call, although it lands in the live list; and any
later `fire` of the event dispatches every callback of its (new) snapshot,
including the one registered mid-dispatch, as long as it stays registered. -/
theorem C10_snapshot_dispatch (e : EId) (ev : String) :
    (∀ (w : World) (args : List Val) (pre post : List CbId) (r cNew : CbId)
      (l : EId),
      aget2 w.events e ev = some (pre ++ r :: post) →
      (∀ x ∈ pre ++ post, plainCb w x) →
      aget w.listBody r = none →
      aget w.bodies r = some (EBody.register l e ev cNew) →
      (fire w e ev args).log =
        w.log ++ (pre ++ r :: post).map (fun x => (x, ev, args)) ∧
      aget2 (fire w e ev args).events e ev =
        some ((pre ++ r :: post) ++ [cNew])) ∧
    (∀ (w' : World) (args2 : List Val) (cbs : List CbId) (cNew : CbId),
      aget2 w'.events e ev = some cbs →
      (∀ x ∈ cbs, benignCb w' x) →
      cNew ∈ cbs →
      (fire w' e ev args2).log =
        w'.log ++ cbs.map (fun x => (x, ev, args2)) ∧
      (cNew, ev, args2) ∈ (fire w' e ev args2).log) := by
  constructor
  · intro w args pre post r cNew l h1 h2 hlbr hbr
    have hpre : ∀ x ∈ pre, plainCb w x := fun x hx => h2 x (by simp [hx])
    have hpost : ∀ x ∈ post, plainCb w x := fun x hx => h2 x (by simp [hx])
    have e1 : fire w e ev args = fireList w e ev args (pre ++ r :: post) := by
      unfold fire; rw [h1]
    have e2 := fireList_plain_prefix e ev args pre w
      (r :: post) hpre
    have e3 := fireList_register_step
      ({ w with log := w.log ++ pre.map (fun x => (x, ev, args)) })
      e ev args r post l e ev cNew hlbr hbr
    have e4 := fireList_plain e ev args post
      (listenTo { w with
        log := w.log ++ pre.map (fun x => (x, ev, args)) ++ [(r, ev, args)] }
        l e ev cNew)
      (fun x hx => plainCb_of_eq (listenTo_listBody _ _ _ _ _)
        (listenTo_bodies _ _ _ _ _) (hpost x hx))
    have hfire : fire w e ev args =
        { listenTo { w with
            log := w.log ++ pre.map (fun x => (x, ev, args))
              ++ [(r, ev, args)] } l e ev cNew with
          log := (listenTo { w with
            log := w.log ++ pre.map (fun x => (x, ev, args))
              ++ [(r, ev, args)] } l e ev cNew).log
            ++ post.map (fun x => (x, ev, args)) } := by
      rw [e1, e2, e3]
      exact e4
    constructor
    · rw [hfire]
      simp only [listenTo_log]
      simp
    · rw [hfire]
      have hg := listenTo_events_get ({ w with
        log := w.log ++ pre.map (fun x => (x, ev, args)) ++ [(r, ev, args)] })
        l e ev cNew
      have hw : aget2 ({ w with
          log := w.log ++ pre.map (fun x => (x, ev, args))
            ++ [(r, ev, args)] } : World).events e ev =
          some (pre ++ r :: post) := h1
      rw [hw] at hg
      show aget2 (listenTo { w with
        log := w.log ++ pre.map (fun x => (x, ev, args)) ++ [(r, ev, args)] }
        l e ev cNew).events e ev = _
      rw [hg]
      simp
  · intro w' args2 cbs cNew hev hben hmem
    have hlog : (fire w' e ev args2).log =
        w'.log ++ cbs.map (fun x => (x, ev, args2)) := by
      unfold fire
      rw [hev]
      show (fireList w' e ev args2 cbs).log = _
      rw [fireList_benign_log cbs w' hben]
    refine ⟨hlog, ?_⟩
    rw [hlog]
    exact List.mem_append.2 (Or.inr (List.mem_map_of_mem _ hmem))

def c10World : World :=
  onEvent (onEvent (onEvent
    { emptyWorld with bodies := [(2, EBody.register 0 0 "x" 9)] }
    0 "x" 1) 0 "x" 2) 0 "x" 3

/-- C10 witness: callback 2 registers callback 9 for the same event while
event `x` of emitter 0 is being fired; 9 is not invoked by that fire, lands
at the end of the live list, and is invoked by the next fire. -/
theorem C10_snapshot_dispatch_witness :
    ((fire c10World 0 "x" []).log =
      c10World.log ++
        ([1] ++ 2 :: [3]).map (fun x => (x, "x", ([] : List Val))) ∧
     aget2 (fire c10World 0 "x" []).events 0 "x" =
      some (([1] ++ 2 :: [3]) ++ [9])) ∧
    ((fire (fire c10World 0 "x" []) 0 "x" []).log =
      (fire c10World 0 "x" []).log ++
        [1, 2, 3, 9].map (fun x => (x, "x", ([] : List Val))) ∧
     (9, "x", ([] : List Val)) ∈ (fire (fire c10World 0 "x" []) 0 "x" []).log) :=
  ⟨(C10_snapshot_dispatch 0 "x").1 c10World [] [1] [3] 2 9 0 (by decide)
      (by decide) (by decide) (by decide),
   (C10_snapshot_dispatch 0 "x").2 (fire c10World 0 "x" []) [] [1, 2, 3, 9] 9
      (by decide) (by decide) (by decide)⟩

theorem isEmpty_false_of_aget {K V : Type} [DecidableEq K]
    {m : JMap K V} {k : K} {v : V} (h : aget m k = some v) :
    m.isEmpty = false := by
  cases m with
  | nil => simp [aget] at h
  | cons a b => rfl

/-- C3 (amended): `listenTo` pushes the callback onto the remote's
`events[eventName]` list and the listener's `subscribedTo[remote]` list
together, and the fully specific `stopListening(remote, eventName, callback)`
with the callback present in both lists removes its first occurrence from
each together, deleting either entry when it becomes empty.  The two-sided
iff correspondence of the original claim does not hold in general (see the
counterexample): `event.off()` during `fire` removes the callback from the
events side only, and `subscribedTo` is per-remote, not per-event. -/
theorem C3_both_sides_updated :
    (∀ (w : World) (l e : EId) (ev : String) (c : CbId),
      aget2 (listenTo w l e ev c).events e ev =
        some (((aget2 w.events e ev).getD []) ++ [c]) ∧
      aget2 (listenTo w l e ev c).subTo l e =
        some (((aget2 w.subTo l e).getD []) ++ [c])) ∧
    (∀ (w : World) (l e : EId) (ev : String) (c : CbId)
      (ecbs vcbs : List CbId),
      aget2 w.subTo l e = some ecbs →
      aget2 w.events e ev = some vcbs →
      c ∈ ecbs → c ∈ vcbs →
      (akeys ((aget w.subTo l).getD [])).Nodup →
      (akeys ((aget w.events e).getD [])).Nodup →
      aget2 (stopListeningCb w l e ev c).subTo l e =
        (if (ecbs.erase c).isEmpty then none else some (ecbs.erase c)) ∧
      aget2 (stopListeningCb w l e ev c).events e ev =
        (if (vcbs.erase c).isEmpty then none else some (vcbs.erase c))) := by
  constructor
  · intro w l e ev c
    exact ⟨listenTo_events_get w l e ev c, listenTo_subTo_get w l e ev c⟩
  · intro w l e ev c ecbs vcbs hsub hev hce hcv hnd1 hnd2
    have hsubL : aget ((aget w.subTo l).getD []) e = some ecbs := by
      rw [← aget2_getD]; exact hsub
    have hevL : aget ((aget w.events e).getD []) ev = some vcbs := by
      rw [← aget2_getD]; exact hev
    have hne := isEmpty_false_of_aget hsubL
    unfold stopListeningCb
    simp only [hne, Bool.false_eq_true, if_false, hsubL, Option.isNone_some,
      hev, Option.getD_some, removeCallback_mem hce, removeCallback_mem hcv]
    constructor
    · rw [aget2_getD]
      simp only [aget_aset_self, Option.getD_some]
      by_cases hemp : (ecbs.erase c).isEmpty
      · rw [if_pos hemp, if_pos hemp]
        exact aget_adel_self_nodup
          (by rw [akeys_aset_of_mem (by simp [hsubL])]; exact hnd1) e
      · rw [if_neg hemp, if_neg hemp, aget_aset_self]
    · rw [aget2_getD]
      simp only [aget_aset_ne, aget_aset_self, Option.getD_some]
      by_cases hemp : (vcbs.erase c).isEmpty
      · rw [if_pos hemp, if_pos hemp]
        exact aget_adel_self_nodup
          (by rw [akeys_aset_of_mem (by simp [hevL])]; exact hnd2) ev
      · rw [if_neg hemp, if_neg hemp, aget_aset_self]

def c3WitWorld : World := listenTo emptyWorld 0 1 "x" 7

/-- C3 witness: registering callback 7 updates both lists together, and the
specific-form removal of the present callback 7 empties and deletes both
entries together. -/
theorem C3_both_sides_updated_witness :
    (aget2 (listenTo emptyWorld 0 1 "x" 7).events 1 "x" =
      some (((aget2 emptyWorld.events 1 "x").getD []) ++ [7]) ∧
     aget2 (listenTo emptyWorld 0 1 "x" 7).subTo 0 1 =
      some (((aget2 emptyWorld.subTo 0 1).getD []) ++ [7])) ∧
    (aget2 (stopListeningCb c3WitWorld 0 1 "x" 7).subTo 0 1 =
      (if (([7] : List CbId).erase 7).isEmpty then none
       else some (([7] : List CbId).erase 7)) ∧
     aget2 (stopListeningCb c3WitWorld 0 1 "x" 7).events 1 "x" =
      (if (([7] : List CbId).erase 7).isEmpty then none
       else some (([7] : List CbId).erase 7))) :=
  ⟨C3_both_sides_updated.1 emptyWorld 0 1 "x" 7,
   C3_both_sides_updated.2 c3WitWorld 0 1 "x" 7 [7] [7] (by decide) (by decide)
     (by decide) (by decide) (by decide) (by decide)⟩

/-- C7 (amended): writing through the accessor compares the new value to the
stored value with strict equality.  If unequal, it stores the value and fires
`change:<name>` exactly once with `(newValue, oldValue)` as the payload after
the event token; if equal, no event fires and no state changes at all.
Consequently `set(name, v)` followed immediately by `set(name, v)` fires
`change:<name>` exactly once when `v` differs from the previously stored
value, and zero times when `v` equals it (the original claim asserts exactly
once for every `v`; see the counterexample). -/
theorem C7_accessor_semantics (w : World) (s : EId) (name : String) (v : Val)
    (spy : CbId)
    (hev : aget2 w.events s ("change:" ++ name) = some [spy])
    (hspy : plainCb w spy) :
    (((aget2 w.observables s name).getD Val.undef) ≠ v →
      setProp w s name v =
        { w with
          observables := aset2 w.observables s name v,
          log := w.log ++ [(spy, "change:" ++ name, [v, (aget2 w.observables s name).getD Val.undef])] } ∧
      setProp (setProp w s name v) s name v = setProp w s name v) ∧
    (((aget2 w.observables s name).getD Val.undef) = v →
      setProp w s name v = w) := by
  constructor
  · intro hne
    have h1 : setProp w s name v =
        { w with
          observables := aset2 w.observables s name v,
          log := w.log ++ [(spy, "change:" ++ name, [v, (aget2 w.observables s name).getD Val.undef])] } := by
      unfold setProp assignProp
      rw [if_pos hne]
      exact fire_single_plain _ s _ _ spy hev hspy
    refine ⟨h1, ?_⟩
    rw [h1]
    unfold setProp assignProp
    simp
  · intro heq
    unfold setProp assignProp
    rw [if_neg (fun h => h heq)]

def c7WitWorld : World := onEvent emptyWorld 5 "change:foo" 21

/-- C7 witness: with no stored value (so `undefined` is stored), setting
`foo` to `'b'` stores it and fires once, a second identical set is a no-op,
and setting `foo` to `undefined` (equal to the stored value) does nothing. -/
theorem C7_accessor_semantics_witness :
    (setProp c7WitWorld 5 "foo" (Val.vstr "b") =
      { c7WitWorld with
        observables := aset2 c7WitWorld.observables 5 "foo" (Val.vstr "b"),
        log := c7WitWorld.log ++ [(21, "change:" ++ "foo", [Val.vstr "b", (aget2 c7WitWorld.observables 5 "foo").getD Val.undef])] } ∧
     setProp (setProp c7WitWorld 5 "foo" (Val.vstr "b")) 5 "foo"
        (Val.vstr "b") =
      setProp c7WitWorld 5 "foo" (Val.vstr "b")) ∧
    setProp c7WitWorld 5 "foo" Val.undef = c7WitWorld :=
  ⟨(C7_accessor_semantics c7WitWorld 5 "foo" (Val.vstr "b") 21 (by decide)
      (by decide)).1 (by decide),
   (C7_accessor_semantics c7WitWorld 5 "foo" Val.undef 21 (by decide)
      (by decide)).2 (by decide)⟩

/-- C1 (amended): when a declared source property changes, every target
callback depending on it is invoked with the freshly collected current values
of ALL the (source, property) pairs of its stored source definition — not
just the changed one — in the definition's grouped order: sources in order of
first appearance in the `.to()` call, properties of one source in order of
first appearance, duplicates collapsed.  `.to()` itself records exactly the
`formatSource` grouping of the declared pairs and immediately invokes the
target once with the values collected in that same order.  (The original
claim's "exact order the pairs were declared" fails when a source is
interleaved; see the counterexample.) -/
theorem C1_grouped_order :
    (∀ (w : World) (o s : EId) (p : String) (v : Val) (lid : CbId),
      aget2 w.events s ("change:" ++ p) = some [lid] →
      aget w.listBody lid = some (o, s, p) →
      ((aget2 w.observables s p).getD Val.undef) ≠ v →
      assignProp w s p v =
        { w with
          observables := aset2 w.observables s p v,
          log := w.log ++ [(lid, "change:" ++ p, [v, (aget2 w.observables s p).getD Val.undef])],
          tlog := w.tlog ++ ((aget3 w.s2t o s p).getD []).map (fun t => (t, collectAllTargetValues { w with observables := aset2 w.observables s p v } ((aget2 w.t2s o t).getD []))) }) ∧
    (∀ (w : World) (o : EId) (cb : CbId) (ps : List SrcArg)
      (sd : JMap EId (List String)),
      aget2 w.t2s o cb = none →
      formatSource ps = Except.ok sd →
      ∃ w2, bindTo w o cb ps = Except.ok w2 ∧
        w2.tlog = w.tlog ++ [(cb, collectAllTargetValues w sd)] ∧
        aget2 w2.t2s o cb = some sd ∧
        w2.observables = w.observables) := by
  constructor
  · intro w o s p v lid hev hlb hne
    unfold assignProp
    rw [if_pos hne]
    have hev2 : aget2
        ({ w with observables := aset2 w.observables s p v } : World).events
        s ("change:" ++ p) = some [lid] := hev
    have hlb2 : aget
        ({ w with observables := aset2 w.observables s p v } : World).listBody
        lid = some (o, s, p) := hlb
    rw [fire_single_listener _ s _ _ lid o s p hev2 hlb2]
    rw [runTargets_eq]
    rfl
  · intro w o cb ps sd hnb hfs
    obtain ⟨ht2s, hobs, htlog⟩ := toLoop_preserves o cb sd
      ({ w with t2s := aset2 w.t2s o cb sd })
    have hget : aget2 (sd.foldl (fun acc sp => toSource acc o cb sp.1 sp.2)
        { w with t2s := aset2 w.t2s o cb sd }).t2s o cb = some sd := by
      rw [ht2s]
      exact aget2_aset2_self w.t2s o cb sd
    refine ⟨{ sd.foldl (fun acc sp => toSource acc o cb sp.1 sp.2)
        { w with t2s := aset2 w.t2s o cb sd } with
      tlog := (sd.foldl (fun acc sp => toSource acc o cb sp.1 sp.2)
          { w with t2s := aset2 w.t2s o cb sd }).tlog ++
        [(cb, collectAllTargetValues
          (sd.foldl (fun acc sp => toSource acc o cb sp.1 sp.2)
            { w with t2s := aset2 w.t2s o cb sd })
          ((aget2 (sd.foldl (fun acc sp => toSource acc o cb sp.1 sp.2)
            { w with t2s := aset2 w.t2s o cb sd }).t2s o cb).getD []))] },
      ?_, ?_, ?_, ?_⟩
    · unfold bindTo
      simp only [hnb, Option.isSome_none, Bool.false_eq_true, if_false, hfs]
    · simp only [htlog, hget, Option.getD_some]
      rw [collect_congr hobs sd]
      rfl
    · exact hget
    · exact hobs

/-- C1 witness: in the bound scenario of the counterexample, mutating `a.x`
dispatches the single `change:x` listener, which re-collects all of the
target's declared values in grouped order; and the original `.to()` call
recorded the grouped definition and invoked the target once immediately. -/
theorem C1_grouped_order_witness :
    (assignProp c1Bound 1 "x" (Val.vnum 10) =
      { c1Bound with
        observables := aset2 c1Bound.observables 1 "x" (Val.vnum 10),
        log := c1Bound.log ++ [(100, "change:" ++ "x", [Val.vnum 10, (aget2 c1Bound.observables 1 "x").getD Val.undef])],
        tlog := c1Bound.tlog ++ ((aget3 c1Bound.s2t 5 1 "x").getD []).map (fun t => (t, collectAllTargetValues { c1Bound with observables := aset2 c1Bound.observables 1 "x" (Val.vnum 10) } ((aget2 c1Bound.t2s 5 t).getD []))) }) ∧
    (∃ w2, bindTo c1Base 5 30 c1Args = Except.ok w2 ∧
      w2.tlog = c1Base.tlog ++
        [(30, collectAllTargetValues c1Base [(1, ["x", "z"]), (2, ["y"])])] ∧
      aget2 w2.t2s 5 30 = some [(1, ["x", "z"]), (2, ["y"])] ∧
      w2.observables = c1Base.observables) :=
  ⟨C1_grouped_order.1 c1Bound 5 1 "x" (Val.vnum 10) 100 (by decide)
      (by decide) (by decide),
   C1_grouped_order.2 c1Base 5 30 c1Args [(1, ["x", "z"]), (2, ["y"])]
      (by decide) (by decide)⟩

/-- A malformed pair at any checked stride-2 position makes `formatSource`'s
loop throw, whatever the accumulated definition. -/
theorem formatLoop_error : ∀ (args : List SrcArg)
    (defn : JMap EId (List String)),
    (∃ i a b, args.get? (2 * i) = some a ∧ args.get? (2 * i + 1) = some b ∧
      (isBindCapable a = false ∨ ∀ q : String, b ≠ SrcArg.str q)) →
    formatLoop args defn = Except.error JsError.invalidSourceDefinition
  | [], _, ⟨_, _, _, hx, _, _⟩ => by simp at hx
  | [_], _, ⟨i, _, _, _, hy, _⟩ => by
      cases i <;> simp [List.get?] at hy
  | a :: b :: rest, defn, ⟨i, x, y, hx, hy, hbad⟩ => by
      cases i with
      | zero =>
          simp only [Nat.mul_zero, List.get?] at hx hy
          obtain rfl : a = x := by injection hx
          obtain rfl : b = y := by injection hy
          rcases hbad with hb | hb
          · unfold formatLoop
            rw [if_pos (by simp [hb])]
          · cases a with
            | obs s =>
                cases b with
                | str q => exact absurd rfl (hb q)
                | obs s2 => simp [formatLoop, isBindCapable]
                | other => simp [formatLoop, isBindCapable]
            | str s => simp [formatLoop, isBindCapable]
            | other => simp [formatLoop, isBindCapable]
      | succ i' =>
          have hx' : rest.get? (2 * i') = some x := by
            rw [show 2 * (i' + 1) = 2 * i' + 1 + 1 by ring] at hx
            simpa [List.get?] using hx
          have hy' : rest.get? (2 * i' + 1) = some y := by
            rw [show 2 * (i' + 1) + 1 = (2 * i' + 1) + 1 + 1 by ring] at hy
            simpa [List.get?] using hy
          have hrec := formatLoop_error rest
          cases a with
          | obs s =>
              cases b with
              | str q =>
                  unfold formatLoop
                  rw [if_neg (by simp [isBindCapable])]
                  show (match aget defn s with
                    | some props => formatLoop rest
                        (aset defn s (if q ∈ props then props else props ++ [q]))
                    | none => formatLoop rest (defn ++ [(s, [q])])) = _
                  cases haget : aget defn s with
                  | none => exact hrec _ ⟨i', x, y, hx', hy', hbad⟩
                  | some props => exact hrec _ ⟨i', x, y, hx', hy', hbad⟩
              | obs s2 => simp [formatLoop, isBindCapable]
              | other => simp [formatLoop, isBindCapable]
          | str s => simp [formatLoop, isBindCapable]
          | other => simp [formatLoop, isBindCapable]

/-- C9: `.to(...)` throws `InvalidSourceDefinitionError` (the source's
`Invalid source definition.`) whenever the argument sequence has fewer than
two elements, an expected-Observable position does not expose the bind
capability, or an expected-property position is not a string; the exception
propagates out of `bindTo` before any state is produced, so no partial
binding is committed. -/
theorem C9_invalid_source_definition (w : World) (o : EId) (cb : CbId)
    (args : List SrcArg) (hnb : aget2 w.t2s o cb = none)
    (hbad : args.length < 2 ∨
      (∃ i a b, args.get? (2 * i) = some a ∧ args.get? (2 * i + 1) = some b ∧
        (isBindCapable a = false ∨ ∀ q : String, b ≠ SrcArg.str q))) :
    bindTo w o cb args = Except.error JsError.invalidSourceDefinition := by
  have hfs : formatSource args = Except.error JsError.invalidSourceDefinition := by
    unfold formatSource
    rcases hbad with hlen | hex
    · rw [if_pos hlen]
    · by_cases hlen : args.length < 2
      · rw [if_pos hlen]
      · rw [if_neg hlen]
        exact formatLoop_error args [] hex
  unfold bindTo
  simp only [hnb, Option.isSome_none, Bool.false_eq_true, if_false, hfs]

/-- C9 witness: `to('foo', 'bar')` (a string in an Observable position)
throws. -/
theorem C9_invalid_source_definition_witness :
    bindTo emptyWorld 5 31 [SrcArg.str "foo", SrcArg.str "bar"] =
      Except.error JsError.invalidSourceDefinition :=
  C9_invalid_source_definition emptyWorld 5 31 [SrcArg.str "foo", SrcArg.str "bar"]
    (by decide)
    (Or.inr ⟨0, SrcArg.str "foo", SrcArg.str "bar", rfl, rfl,
      Or.inl rfl⟩)

/-- C8: from a fresh binding state with arbitrary property values,
`bind(cb).to(s, p)` invokes `cb` exactly once (at bind time, with the current
value of `s.p`), and `unbind(cb)` removes `cb`'s definition record and its
dependent-set membership, tears down the underlying `change:<p>` subscription
on both the remote's event list and the owner's bookkeeping, and removes the
per-source entry; a subsequent write to `s.p` does not invoke `cb` again. -/
theorem C8_bind_unbind_roundtrip (obs : JMap EId (JMap String Val)) (n : CbId)
    (o s : EId) (p : String) (cb : CbId) (v : Val) :
    ∃ w1, bindTo (⟨[], [], obs, [], [], [], [], n, [], []⟩ : World) o cb
        [SrcArg.obs s, SrcArg.str p] = Except.ok w1 ∧
      w1.tlog = [(cb, [(aget2 obs s p).getD Val.undef])] ∧
      aget2 (unbind w1 o cb).t2s o cb = none ∧
      aget2 (unbind w1 o cb).s2t o s = none ∧
      aget2 (unbind w1 o cb).events s ("change:" ++ p) = none ∧
      aget2 (unbind w1 o cb).subTo o s = none ∧
      (assignProp (unbind w1 o cb) s p v).tlog = (unbind w1 o cb).tlog ∧
      (unbind w1 o cb).tlog = [(cb, [(aget2 obs s p).getD Val.undef])] := by
  have h1 : bindTo (⟨[], [], obs, [], [], [], [], n, [], []⟩ : World) o cb
      [SrcArg.obs s, SrcArg.str p] =
      Except.ok (⟨[(s, [("change:" ++ p, [n])])], [(o, [(s, [n])])], obs,
        [(o, [(cb, [(s, [p])])])], [(o, [(s, [(p, [cb])])])],
        [(n, (o, s, p))], [], n + 1, [],
        [(cb, [(aget2 obs s p).getD Val.undef])]⟩ : World) := by
    simp [bindTo, formatSource, formatLoop, isBindCapable, toSource, toProp,
      listenTo, collectAllTargetValues, aget2, aset2, aget3, aset, aget]
  have h2 : unbind (⟨[(s, [("change:" ++ p, [n])])], [(o, [(s, [n])])], obs,
      [(o, [(cb, [(s, [p])])])], [(o, [(s, [(p, [cb])])])],
      [(n, (o, s, p))], [], n + 1, [],
      [(cb, [(aget2 obs s p).getD Val.undef])]⟩ : World) o cb =
      (⟨[(s, [])], [(o, [])], obs, [(o, [])], [(o, [])],
        [(n, (o, s, p))], [], n + 1, [],
        [(cb, [(aget2 obs s p).getD Val.undef])]⟩ : World) := by
    simp [unbind, unbindProp, stopListeningEvent, stopListeningCb,
      removeCallback, akeys, aget2, aget3, aset2, aset, aget, adel]
  refine ⟨_, h1, rfl, ?_, ?_, ?_, ?_, ?_, ?_⟩
  · rw [h2]; simp [aget2, aget]
  · rw [h2]; simp [aget2, aget]
  · rw [h2]; simp [aget2, aget]
  · rw [h2]; simp [aget2, aget]
  · rw [h2]
    unfold assignProp
    by_cases hv : (aget2 (⟨[(s, [])], [(o, [])], obs, [(o, [])], [(o, [])],
        [(n, (o, s, p))], [], n + 1, [],
        [(cb, [(aget2 obs s p).getD Val.undef])]⟩ : World).observables s
        p).getD Val.undef ≠ v
    · rw [if_pos hv]
      unfold fire
      simp [aget2, aget]
    · rw [if_neg hv]
  · rw [h2]

theorem aget_map_pair_none {V : Type} {cs : List CbId} {c : CbId}
    (g : CbId → V) (h : c ∉ cs) :
    aget (cs.map (fun x => (x, g x))) c = none := by
  induction cs with
  | nil => rfl
  | cons a rest ih =>
      simp only [List.mem_cons, not_or] at h
      have ha : ¬ a = c := fun h' => h.1 h'.symm
      simp [aget, ha, ih h.2]

theorem aget_map_pair_mem {V : Type} {cs : List CbId} {c : CbId}
    (g : CbId → V) (h : c ∈ cs) :
    aget (cs.map (fun x => (x, g x))) c = some (g c) := by
  induction cs with
  | nil => simp at h
  | cons a rest ih =>
      by_cases hac : a = c
      · subst hac; simp [aget]
      · have : c ∈ rest := by
          rcases List.mem_cons.1 h with h' | h'
          · exact absurd h'.symm hac
          · exact h'
        simp [aget, hac, ih this]

theorem aset_append_of_none {K V : Type} [DecidableEq K]
    {m : JMap K V} {k : K} (h : aget m k = none) (v : V) :
    aset m k v = m ++ [(k, v)] := by
  induction m with
  | nil => rfl
  | cons a rest ih =>
      obtain ⟨k0, v0⟩ := a
      by_cases hk : k0 = k
      · simp [aget, hk] at h
      · simp only [aget, hk, if_false] at h
        simp [aset, hk, ih h]

theorem aget_append_left {K V : Type} [DecidableEq K]
    {m1 : JMap K V} {k : K} {v : V} (m2 : JMap K V)
    (h : aget m1 k = some v) : aget (m1 ++ m2) k = some v := by
  induction m1 with
  | nil => simp [aget] at h
  | cons a rest ih =>
      obtain ⟨k0, v0⟩ := a
      by_cases hk : k0 = k
      · simp_all [aget]
      · simp only [aget, hk, if_false] at h
        simp [aget, hk, ih h]

theorem aget_append_right {K V : Type} [DecidableEq K]
    {m1 : JMap K V} {k : K} (m2 : JMap K V)
    (h : aget m1 k = none) : aget (m1 ++ m2) k = aget m2 k := by
  induction m1 with
  | nil => simp
  | cons a rest ih =>
      obtain ⟨k0, v0⟩ := a
      by_cases hk : k0 = k
      · simp [aget, hk] at h
      · simp only [aget, hk, if_false] at h
        simp [aget, hk, ih h]

/-- Scenario runner: bind each callback of a list, in order, to the same
`.to()` argument list, propagating a thrown error. -/
def bindSeq (o : EId) (ps : List SrcArg) :
    List CbId → World → Except JsError World
  | [], w => .ok w
  | c :: rest, w =>
      match bindTo w o c ps with
      | .error e => .error e
      | .ok w' => bindSeq o ps rest w'

/-- The binding state after a list of distinct callbacks has been bound, in
order, to the single pair (source `s`, property `p`) on owner `o`, starting
from a fresh world with property store `obs` and callback allocator `n`:
one listener (`n`) for the pair, every callback in the pair's dependent set,
and one initial invocation per callback. -/
def c2State (obs : JMap EId (JMap String Val)) (n : CbId) (o s : EId)
    (p : String) (cs : List CbId) : World :=
  ⟨[(s, [("change:" ++ p, [n])])], [(o, [(s, [n])])], obs,
   [(o, cs.map (fun c => (c, [(s, [p])])))], [(o, [(s, [(p, cs)])])],
   [(n, (o, s, p))], [], n + 1, [],
   cs.map (fun c => (c, [(aget2 obs s p).getD Val.undef]))⟩

theorem c2_first_bind (obs : JMap EId (JMap String Val)) (n : CbId)
    (o s : EId) (p : String) (c : CbId) :
    bindTo (⟨[], [], obs, [], [], [], [], n, [], []⟩ : World) o c
      [SrcArg.obs s, SrcArg.str p] = Except.ok (c2State obs n o s p [c]) := by
  simp [bindTo, formatSource, formatLoop, isBindCapable, toSource, toProp,
    listenTo, collectAllTargetValues, aget2, aset2, aget3, aset, aget, c2State]

theorem c2_next_bind (obs : JMap EId (JMap String Val)) (n : CbId)
    (o s : EId) (p : String) (cs : List CbId) (c : CbId) (hc : c ∉ cs) :
    bindTo (c2State obs n o s p cs) o c [SrcArg.obs s, SrcArg.str p] =
      Except.ok (c2State obs n o s p (cs ++ [c])) := by
  have hnone := aget_map_pair_none
    (fun _ => ([(s, [p])] : JMap EId (List String))) hc
  have hlook : aget ((cs.map (fun x =>
      (x, ([(s, [p])] : JMap EId (List String))))) ++ [(c, [(s, [p])])]) c =
      some [(s, [p])] := by
    rw [aget_append_right _ hnone]
    simp [aget]
  simp [bindTo, c2State, formatSource, formatLoop, isBindCapable, toSource,
    toProp, listenTo, collectAllTargetValues, aget2, aset2, aget3, aset, aget,
    hnone, hc, aset_append_of_none hnone, hlook]

theorem c2_bind_seq (obs : JMap EId (JMap String Val)) (n : CbId)
    (o s : EId) (p : String) :
    ∀ (rest cs : List CbId), (∀ c ∈ rest, c ∉ cs) → rest.Nodup →
    bindSeq o [SrcArg.obs s, SrcArg.str p] rest (c2State obs n o s p cs) =
      Except.ok (c2State obs n o s p (cs ++ rest)) := by
  intro rest
  induction rest with
  | nil => intro cs _ _; simp [bindSeq]
  | cons r rest' ih =>
      intro cs hdisj hnd
      rw [bindSeq, c2_next_bind obs n o s p cs r (hdisj r (by simp))]
      show bindSeq o _ rest' (c2State obs n o s p (cs ++ [r])) = _
      rw [ih (cs ++ [r]) ?_ ?_]
      · rw [List.append_assoc]
        rfl
      · intro c hcr
        simp only [List.mem_append, List.mem_singleton, not_or]
        refine ⟨hdisj c (by simp [hcr]), ?_⟩
        intro hceq
        subst hceq
        exact (List.nodup_cons.1 hnd).1 hcr
      · exact (List.nodup_cons.1 hnd).2

theorem c2_bind_q (obs : JMap EId (JMap String Val)) (n : CbId) (o s : EId)
    (p q : String) (cs : List CbId) (cq : CbId)
    (hq : cq ∉ cs) (hpq : p ≠ q) :
    bindTo (c2State obs n o s p cs) o cq [SrcArg.obs s, SrcArg.str q] =
      Except.ok (⟨[(s, [("change:" ++ p, [n]), ("change:" ++ q, [n + 1])])],
        [(o, [(s, [n, n + 1])])], obs,
        [(o, cs.map (fun c => (c, [(s, [p])])) ++ [(cq, [(s, [q])])])],
        [(o, [(s, [(p, cs), (q, [cq])])])],
        [(n, (o, s, p)), (n + 1, (o, s, q))], [], n + 2, [],
        cs.map (fun c => (c, [(aget2 obs s p).getD Val.undef])) ++
          [(cq, [(aget2 obs s q).getD Val.undef])]⟩ : World) := by
  have hcne : ("change:" ++ p) ≠ ("change:" ++ q) :=
    fun h => hpq (changeName_inj h)
  have hnone := aget_map_pair_none
    (fun _ => ([(s, [p])] : JMap EId (List String))) hq
  have hlook : aget ((cs.map (fun x =>
      (x, ([(s, [p])] : JMap EId (List String))))) ++ [(cq, [(s, [q])])]) cq =
      some [(s, [q])] := by
    rw [aget_append_right _ hnone]
    simp [aget]
  simp [bindTo, c2State, formatSource, formatLoop, isBindCapable, toSource,
    toProp, listenTo, collectAllTargetValues, aget2, aset2, aget3, aset, aget,
    hnone, hq, hcne, aset_append_of_none hnone, hlook, hpq]

theorem assignProp_single_listener_tlog (w : World) (o s : EId) (p : String)
    (v : Val) (lid : CbId)
    (hev : aget2 w.events s ("change:" ++ p) = some [lid])
    (hlb : aget w.listBody lid = some (o, s, p))
    (hne : ((aget2 w.observables s p).getD Val.undef) ≠ v) :
    (assignProp w s p v).tlog =
      w.tlog ++ ((aget3 w.s2t o s p).getD []).map (fun t => (t, collectAllTargetValues { w with observables := aset2 w.observables s p v } ((aget2 w.t2s o t).getD []))) := by
  unfold assignProp
  rw [if_pos hne]
  have hev2 : aget2
      ({ w with observables := aset2 w.observables s p v } : World).events
      s ("change:" ++ p) = some [lid] := hev
  have hlb2 : aget
      ({ w with observables := aset2 w.observables s p v } : World).listBody
      lid = some (o, s, p) := hlb
  rw [fire_single_listener _ s _ _ lid o s p hev2 hlb2]
  rw [runTargets_eq]
  rfl

/-- C2 (amended, single binding owner): when one Observable owner binds any
number of distinct callbacks to the same (source, property) pair, exactly one
underlying `change:<property>` subscription to the source exists no matter
how many callbacks depend on the pair (and one per further pair, e.g. a
second property bound by another callback); a change to the property then
notifies each dependent callback exactly once, with the current value, and
never notifies the callback bound only to the other property.  With a second
owner bound to the same source the original claim fails — its teardown can
destroy the first owner's subscription (see the counterexample). -/
theorem C2_single_owner_dedup (obs : JMap EId (JMap String Val)) (n : CbId)
    (o s : EId) (p q : String) (v : Val) (c0 : CbId) (rest : List CbId)
    (cq : CbId)
    (hnd : (c0 :: rest).Nodup) (hq : cq ∉ c0 :: rest) (hpq : p ≠ q)
    (hv : (aget2 obs s p).getD Val.undef ≠ v) :
    ∃ w1 w2,
      bindSeq o [SrcArg.obs s, SrcArg.str p] (c0 :: rest)
        (⟨[], [], obs, [], [], [], [], n, [], []⟩ : World) = Except.ok w1 ∧
      bindTo w1 o cq [SrcArg.obs s, SrcArg.str q] = Except.ok w2 ∧
      aget2 w2.events s ("change:" ++ p) = some [n] ∧
      aget2 w2.subTo o s = some [n, n + 1] ∧
      aget3 w2.s2t o s p = some (c0 :: rest) ∧
      (assignProp w2 s p v).tlog =
        w2.tlog ++ (c0 :: rest).map (fun c => (c, [v])) := by
  have hseq : bindSeq o [SrcArg.obs s, SrcArg.str p] (c0 :: rest)
      (⟨[], [], obs, [], [], [], [], n, [], []⟩ : World) =
      Except.ok (c2State obs n o s p (c0 :: rest)) := by
    rw [bindSeq, c2_first_bind obs n o s p c0]
    show bindSeq o _ rest (c2State obs n o s p [c0]) = _
    rw [c2_bind_seq obs n o s p rest [c0] ?_ (List.Nodup.of_cons hnd)]
    · rfl
    · intro c hcr
      simp only [List.mem_singleton]
      intro hceq
      subst hceq
      exact (List.nodup_cons.1 hnd).1 hcr
  refine ⟨c2State obs n o s p (c0 :: rest), _, hseq,
    c2_bind_q obs n o s p q (c0 :: rest) cq hq hpq, ?_, ?_, ?_, ?_⟩
  · simp [aget2, aget]
  · simp [aget2, aget]
  · simp [aget3, aget2, aget]
  · refine (assignProp_single_listener_tlog _ o s p v n ?_ ?_ hv).trans ?_
    · simp [aget2, aget]
    · simp [aget]
    · have hts : aget3 ((⟨[(s, [("change:" ++ p, [n]), ("change:" ++ q, [n + 1])])],
          [(o, [(s, [n, n + 1])])], obs,
          [(o, (c0 :: rest).map (fun c => (c, [(s, [p])])) ++ [(cq, [(s, [q])])])],
          [(o, [(s, [(p, c0 :: rest), (q, [cq])])])],
          [(n, (o, s, p)), (n + 1, (o, s, q))], [], n + 2, [],
          (c0 :: rest).map (fun c => (c, [(aget2 obs s p).getD Val.undef])) ++
            [(cq, [(aget2 obs s q).getD Val.undef])]⟩ : World)).s2t o s p =
          some (c0 :: rest) := by
        simp [aget3, aget2, aget]
      rw [hts]
      simp only [Option.getD_some]
      congr 1
      apply List.map_congr_left
      intro c hcmem
      have hdef : aget ((c0 :: rest).map (fun x =>
          (x, ([(s, [p])] : JMap EId (List String)))) ++ [(cq, [(s, [q])])])
          c = some [(s, [p])] :=
        aget_append_left _ (aget_map_pair_mem _ hcmem)
      simp only [aget2, aget_cons, eq_self_iff_true, if_true,
        Option.some_bind]
      rw [hdef]
      simp [collectAllTargetValues, aget2, aset2]

/-- C2 witness: callbacks 40 and 41 bound to (source 1, `p`), callback 42 to
(source 1, `q`), single owner 5; one listener (100) serves `p`, and a change
to `p` notifies 40 and 41 exactly once each and 42 not at all. -/
theorem C2_single_owner_dedup_witness :
    ∃ w1 w2,
      bindSeq 5 [SrcArg.obs 1, SrcArg.str "p"] [40, 41]
        (⟨[], [], [], [], [], [], [], 100, [], []⟩ : World) = Except.ok w1 ∧
      bindTo w1 5 42 [SrcArg.obs 1, SrcArg.str "q"] = Except.ok w2 ∧
      aget2 w2.events 1 ("change:" ++ "p") = some [100] ∧
      aget2 w2.subTo 5 1 = some [100, 101] ∧
      aget3 w2.s2t 5 1 "p" = some [40, 41] ∧
      (assignProp w2 1 "p" (Val.vnum 7)).tlog =
        w2.tlog ++ [40, 41].map (fun c => (c, [Val.vnum 7])) :=
  C2_single_owner_dedup [] 100 5 1 "p" "q" (Val.vnum 7) 40 [41] 42
    (by decide) (by decide) (by decide) (by decide)
